import Mathlib

/-!
Verification of the neuron-processor repository's core array logic.

The repository's reproducible core consists of three pieces:

* the label normalizer of `002_relabel_neuropil.py` (lines 19-25, the
  `dendrite_relabeled` computation);
* the point-driven label transfer of `neuropil_utils.py`
  (`LabelTransferWidget.transfer_labels`, lines 189-204);
* the PNG slice exporter of `neuropil_utils.py`
  (`LabelSaveWidget.save_labels_as_png`, lines 304-308).

Volumes are embedded as a shape together with the row-major flattened list of
integer voxel values (numpy arrays are C-ordered by default).
-/

namespace NeuronProcessor

/-- An integer-labeled volume: the array shape (numpy `.shape`) together with
its row-major flattened contents. -/
structure Volume where
  shape : List Nat
  data : List Int
deriving Repr, DecidableEq

/-- A volume is well formed when its flat data has exactly one entry per
multi-index of its shape. -/
def wellFormed (V : Volume) : Prop :=
  V.data.length = V.shape.prod

/-- `np.unique(volume)`: the distinct values present, sorted ascending
(`002_relabel_neuropil.py` line 19). -/
def npUnique (l : List Int) : List Int :=
  l.dedup.insertionSort (· ≤ ·)

/-- Line 20 of `002_relabel_neuropil.py`:
`dendrite_unique = dendrite_unique[dendrite_unique > 0]` — keep only the
distinct values strictly greater than 0, still in ascending order. -/
def posUnique (l : List Int) : List Int :=
  (npUnique l).filter (fun x => decide (0 < x))

/-- One iteration of the relabeling loop body (line 25):
`dendrite_relabeled[dendrite_images == old_label] = new_label`. Positions
where the original data holds `old` are overwritten with `new`; all other
positions keep their current output value. -/
def writeMask (orig out : List Int) (old new : Int) : List Int :=
  (orig.zip out).map (fun p => if p.1 = old then new else p.2)

/-- Lines 23-25 of `002_relabel_neuropil.py`: start from
`np.zeros_like(dendrite_images)` and run the relabeling loop over
`enumerate(dendrite_unique, start=1)`. -/
def normalizeData (orig : List Int) : List Int :=
  ((posUnique orig).enum).foldl
    (fun out p => writeMask orig out p.2 ((p.1 : Int) + 1))
    (orig.map (fun _ => 0))

/-- The Label Normalizer (spec section 4.1) as computed by lines 19-25 of
`002_relabel_neuropil.py`: the shape is untouched and the data is relabeled. -/
def normalize (V : Volume) : Volume :=
  ⟨V.shape, normalizeData V.data⟩

/-- The number of distinct nonzero values held by a volume. -/
def countDistinctNonzero (V : Volume) : Nat :=
  (V.data.toFinset.filter (fun x => x ≠ 0)).card

/-- The value map realized by the relabeling loop: a value present in `u`
is sent to its 1-based rank in `u`, every other value to 0. -/
def rank (u : List Int) (x : Int) : Int :=
  if x ∈ u then (List.indexOf x u : Int) + 1 else 0

/-- The composite update applied to the background map by the suffix `u` of
the enumerated unique-label list, with 1-based labels starting at `n + 1`. -/
def applyEnum (u : List Int) (n : Nat) (g : Int → Int) : Int → Int :=
  match u with
  | [] => g
  | old :: us => applyEnum us (n + 1) (fun x => if x = old then (n : Int) + 1 else g x)

/-- The dense label range `[1, 2, ..., K]` as a list of integers. -/
def denseRange (K : Nat) : List Int :=
  (List.range K).map (fun (n : Nat) => (n : Int) + 1)

/-- Line 192 of `neuropil_utils.py`:
`any(idx < 0 or idx >= dim for idx, dim in zip(point_indices, from_layer.data.shape))`.
The point's integer coordinates are zipped against the source shape and the
point is rejected when any coordinate falls outside `[0, dim)`. -/
def outOfBounds (shape : List Nat) (pt : List Int) : Bool :=
  (pt.zip shape).any (fun p => decide (p.1 < 0 ∨ (p.2 : Int) ≤ p.1))

/-- Row-major (numpy C-order) flattening of a multi-index against a shape,
used to embed `from_layer.data[point_indices]` over the flat data list. -/
def flatIndex : List Nat → List Int → Nat
  | _, [] => 0
  | [], _ => 0
  | _ :: ds, i :: is => i.toNat * ds.prod + flatIndex ds is

/-- Line 195 of `neuropil_utils.py`: `label_value = from_layer.data[point_indices]`. -/
def readVoxel (V : Volume) (pt : List Int) : Int :=
  V.data.getD (flatIndex V.shape pt) 0

/-- `leadingDims ms ds = true` when the dimension list `ms` is an initial
segment of the dimension list `ds`. numpy accepts a boolean index whose shape
matches the leading dimensions of the indexed array (consuming that many
axes) and raises an `IndexError` otherwise. -/
def leadingDims : List Nat → List Nat → Bool
  | [], _ => true
  | _ :: _, [] => false
  | a :: ms, b :: ds => decide (a = b) && leadingDims ms ds

/-- One iteration of the transfer loop (lines 189-202 of `neuropil_utils.py`)
for distinct From/To layers: skip the point when its coordinates are out of
bounds or its source voxel is background, otherwise compute
`label_mask = (from_layer.data == label_value)` once and apply
`to_layer.data[label_mask] = label_value` and `from_layer.data[label_mask] = 0`.
The source has no shape guard; the behavior at the mask assignment follows
numpy boolean indexing: when the mask's shape equals the destination's shape
each masked voxel is written; when it is a proper leading segment of the
destination's dimensions, the assignment silently writes the whole trailing
subarray under each masked position (each destination flat index `q` lies
under mask position `q / suffixProd`, for `suffixProd` the product of the
destination's remaining trailing dimensions); otherwise numpy raises an
`IndexError`, embedded here as the error case. -/
def processPoint (sd : Volume × Volume) (pt : List Int) : Except String (Volume × Volume) :=
  if outOfBounds sd.1.shape pt then Except.ok sd
  else
    let v := readVoxel sd.1 pt
    if v = 0 then Except.ok sd
    else if sd.1.shape = sd.2.shape then
      Except.ok
        (⟨sd.1.shape, sd.1.data.map (fun x => if x = v then 0 else x)⟩,
          ⟨sd.2.shape, (sd.1.data.zip sd.2.data).map (fun p => if p.1 = v then v else p.2)⟩)
    else if leadingDims sd.1.shape sd.2.shape then
      Except.ok
        (⟨sd.1.shape, sd.1.data.map (fun x => if x = v then 0 else x)⟩,
          ⟨sd.2.shape, (sd.2.data.enum).map (fun p =>
            if sd.1.data.getD (p.1 / (sd.2.shape.drop sd.1.shape.length).prod) 0 = v
            then v else p.2)⟩)
    else Except.error "boolean index did not match the shape of the indexed array"

/-- The point loop of `transfer_labels` (lines 189-202), processing the points
in input order over the (source, destination) pair. -/
def transferFold (src dst : Volume) (points : List (List Int)) :
    Except String (Volume × Volume) :=
  points.foldlM processPoint (src, dst)

/-- `LabelTransferWidget.transfer_labels` (lines 184-204 of
`neuropil_utils.py`), restricted to its array semantics: an empty point list
returns early (line 185-187); otherwise the points are processed in order and
the point set is cleared (`point_layer.data = []`, line 204). The returned
triple is (source, destination, remaining points). -/
def transfer (src dst : Volume) (points : List (List Int)) :
    Except String (Volume × Volume × List (List Int)) :=
  if points.isEmpty then Except.ok (src, dst, points)
  else (transferFold src dst points).map (fun sd => (sd.1, sd.2, []))

/-- One iteration of the transfer loop when the From and To combo boxes select
the same layer, so `from_layer.data` and `to_layer.data` are the same array:
the precomputed mask positions are first written with `label_value` (a no-op)
and then zeroed. -/
def processPointSame (vol : Volume) (pt : List Int) : Volume :=
  if outOfBounds vol.shape pt then vol
  else
    let v := readVoxel vol pt
    if v = 0 then vol
    else
      let afterTo := Volume.mk vol.shape (vol.data.map (fun x => if x = v then v else x))
      Volume.mk afterTo.shape
        ((vol.data.zip afterTo.data).map (fun p => if p.1 = v then 0 else p.2))

/-- Lines 305-306 of `neuropil_utils.py`: `slice_data.astype(np.uint16)`.
numpy's integer `astype` performs a C-style conversion, i.e. reduction modulo
`2^16`, on each value. -/
def toUint16 (x : Int) : Nat :=
  (x % 65536).toNat

/-- Modelled from the spec: the clamping cast the spec prescribes instead
("implementers should clamp rather than wrap") — values below 0 go to 0 and
values above 65535 go to 65535. The source has no such clamping code. -/
def clamp16 (x : Int) : Nat :=
  if x < 0 then 0 else if (65535 : Int) < x then 65535 else x.toNat

/-- Lines 304-306 of `LabelSaveWidget.save_labels_as_png`: iterate the first
axis (`for z_idx in range(label_data.shape[0])`), take each 2-D slice and cast
its pixel values with `astype(np.uint16)`. -/
def exportSlices (V : Volume) : List (List Nat) :=
  match V.shape with
  | [] => []
  | n :: rest =>
    (List.range n).map (fun z =>
      ((V.data.drop (z * rest.prod)).take rest.prod).map toUint16)

/- Sanity check: the spec's scenario V = [[0,5,5],[3,3,0]] relabels to
[[0,2,2],[1,1,0]]. -/
example : normalize ⟨[2, 3], [0, 5, 5, 3, 3, 0]⟩ = ⟨[2, 3], [0, 2, 2, 1, 1, 0]⟩ := by
  decide

/- Sanity check: the spec's transfer scenario moves the whole value-7 group
and clears the point list. -/
example :
    transfer ⟨[2, 3], [7, 7, 0, 0, 0, 7]⟩ ⟨[2, 3], [0, 0, 0, 0, 0, 0]⟩ [[0, 0]]
      = Except.ok (⟨[2, 3], [0, 0, 0, 0, 0, 0]⟩, ⟨[2, 3], [7, 7, 0, 0, 0, 7]⟩, []) := by
  rfl

/- Sanity check: a mask of shape (2,) over a destination of shape (2,2)
matches the destination's leading dimension, so numpy silently writes the
whole row under each masked position. -/
example :
    processPoint (⟨[2], [7, 0]⟩, ⟨[2, 2], [1, 2, 3, 4]⟩) [0]
      = Except.ok (⟨[2], [0, 0]⟩, ⟨[2, 2], [7, 7, 3, 4]⟩) := by
  rfl

theorem mem_npUnique {l : List Int} {x : Int} : x ∈ npUnique l ↔ x ∈ l := by
  unfold npUnique
  rw [List.mem_insertionSort, List.mem_dedup]

theorem npUnique_sorted (l : List Int) : List.Sorted (· ≤ ·) (npUnique l) :=
  List.sorted_insertionSort _ _

theorem npUnique_nodup (l : List Int) : (npUnique l).Nodup :=
  ((List.perm_insertionSort _ _).nodup_iff).mpr (List.nodup_dedup l)

theorem mem_posUnique {l : List Int} {x : Int} : x ∈ posUnique l ↔ x ∈ l ∧ 0 < x := by
  unfold posUnique
  rw [List.mem_filter, mem_npUnique, decide_eq_true_eq]

theorem posUnique_sorted (l : List Int) : List.Sorted (· ≤ ·) (posUnique l) :=
  (npUnique_sorted l).filter _

theorem posUnique_nodup (l : List Int) : (posUnique l).Nodup :=
  (npUnique_nodup l).filter _

theorem posUnique_pos {l : List Int} {x : Int} (hx : x ∈ posUnique l) : 0 < x :=
  (mem_posUnique.mp hx).2

theorem writeMask_map (orig : List Int) (g : Int → Int) (old new : Int) :
    writeMask orig (orig.map g) old new
      = orig.map (fun x => if x = old then new else g x) := by
  induction orig with
  | nil => rfl
  | cons a l ih =>
    simp only [List.map_cons, writeMask, List.zip_cons_cons] at *
    exact congrArg _ ih

theorem foldl_writeMask (orig : List Int) :
    ∀ (u : List Int) (n : Nat) (g : Int → Int),
      (u.enumFrom n).foldl (fun out p => writeMask orig out p.2 ((p.1 : Int) + 1))
          (orig.map g)
        = orig.map (applyEnum u n g) := by
  intro u
  induction u with
  | nil => intro n g; rfl
  | cons old us ih =>
    intro n g
    simp only [List.enumFrom, List.foldl_cons, applyEnum]
    rw [writeMask_map, ih]

theorem applyEnum_eq {u : List Int} (hu : u.Nodup) :
    ∀ (n : Nat) (g : Int → Int) (x : Int),
      applyEnum u n g x
        = if x ∈ u then (n : Int) + (List.indexOf x u : Int) + 1 else g x := by
  induction u with
  | nil => intro n g x; simp [applyEnum]
  | cons old us ih =>
    intro n g x
    have hnodup := hu
    rw [List.nodup_cons] at hnodup
    rw [applyEnum, ih hnodup.2]
    by_cases hmem : x ∈ us
    · have hne : x ≠ old := fun h => hnodup.1 (h ▸ hmem)
      rw [if_pos hmem, if_pos (List.mem_cons_of_mem _ hmem),
        List.indexOf_cons_ne _ (Ne.symm hne)]
      push_cast
      ring
    · rw [if_neg hmem]
      by_cases hx : x = old
      · subst hx
        rw [if_pos rfl, if_pos (List.mem_cons_self _ _), List.indexOf_cons_self]
        simp
      · rw [if_neg hx, if_neg (by simp [List.mem_cons, hx, hmem])]

/-- Closed form of the relabeling loop: each voxel is independently sent to
the 1-based rank of its original value among the ascending distinct positive
values, and to 0 when its value is not among them. -/
theorem normalizeData_eq_map (orig : List Int) :
    normalizeData orig = orig.map (rank (posUnique orig)) := by
  unfold normalizeData
  rw [List.enum, foldl_writeMask]
  apply List.map_congr_left
  intro a _
  rw [applyEnum_eq (posUnique_nodup orig)]
  unfold rank
  by_cases h : a ∈ posUnique orig
  · rw [if_pos h, if_pos h]
    push_cast
    ring
  · rw [if_neg h, if_neg h]

theorem rank_eq_zero_of_nonpos {u : List Int} (hu : ∀ y ∈ u, 0 < y) {x : Int}
    (hx : x ≤ 0) : rank u x = 0 := by
  unfold rank
  rw [if_neg]
  intro hmem
  exact absurd (hu x hmem) (not_lt.mpr hx)

theorem rank_pos_of_mem {u : List Int} {x : Int} (hx : x ∈ u) : 0 < rank u x := by
  unfold rank
  rw [if_pos hx]
  positivity

theorem rank_le_length {u : List Int} (x : Int) : rank u x ≤ u.length := by
  unfold rank
  split
  · have := List.indexOf_lt_length.mpr (by assumption)
    omega
  · positivity

theorem rank_nonneg (u : List Int) (x : Int) : 0 ≤ rank u x := by
  unfold rank
  split
  · positivity
  · exact le_refl 0

theorem indexOf_get_of_nodup {u : List Int} (hu : u.Nodup) {i : Nat} (hi : i < u.length) :
    List.indexOf (u.get ⟨i, hi⟩) u = i := by
  have hmem : u.get ⟨i, hi⟩ ∈ u := u.get_mem _ _
  have hlt : List.indexOf (u.get ⟨i, hi⟩) u < u.length := List.indexOf_lt_length.mpr hmem
  have hget : u.get ⟨List.indexOf (u.get ⟨i, hi⟩) u, hlt⟩ = u.get ⟨i, hi⟩ :=
    List.indexOf_get hlt
  have := (List.Nodup.get_inj_iff hu).mp hget
  exact congrArg Fin.val this

theorem normalizeData_length (orig : List Int) :
    (normalizeData orig).length = orig.length := by
  rw [normalizeData_eq_map, List.length_map]

theorem normalizeData_getD (orig : List Int) {p : Nat} (hp : p < orig.length) :
    (normalizeData orig).getD p 0 = rank (posUnique orig) (orig.getD p 0) := by
  rw [normalizeData_eq_map,
    List.getD_eq_getElem _ _ (by simpa using hp),
    List.getD_eq_getElem _ _ hp, List.getElem_map]

/-- C1: `normalize` keeps the shape, sends background 0 to 0, sends the
`i`-th smallest distinct positive value (1-indexed) to `i`, keeps every output
value in `{0, ..., K}` for `K` the number of distinct positive values, and an
input with no nonzero values yields an all-zero output with `K = 0`. -/
theorem C1_normalize_relabels (V : Volume) :
    (normalize V).shape = V.shape ∧
    (normalize V).data.length = V.data.length ∧
    (∀ p, p < V.data.length →
      (V.data.getD p 0 = 0 → (normalize V).data.getD p 0 = 0) ∧
      (∀ i (hi : i < (posUnique V.data).length),
        V.data.getD p 0 = (posUnique V.data).get ⟨i, hi⟩ →
        (normalize V).data.getD p 0 = (i : Int) + 1) ∧
      0 ≤ (normalize V).data.getD p 0 ∧
      (normalize V).data.getD p 0 ≤ ((posUnique V.data).length : Int)) ∧
    ((∀ x ∈ V.data, x = 0) →
      (∀ y ∈ (normalize V).data, y = 0) ∧ posUnique V.data = []) := by
  refine ⟨rfl, normalizeData_length V.data, ?_, ?_⟩
  · intro p hp
    refine ⟨?_, ?_, ?_, ?_⟩
    · intro h0
      rw [show (normalize V).data = normalizeData V.data from rfl,
        normalizeData_getD V.data hp, h0]
      exact rank_eq_zero_of_nonpos (fun y hy => posUnique_pos hy) le_rfl
    · intro i hi hvi
      rw [show (normalize V).data = normalizeData V.data from rfl,
        normalizeData_getD V.data hp, hvi]
      unfold rank
      rw [if_pos ((posUnique V.data).get_mem _ _),
        indexOf_get_of_nodup (posUnique_nodup V.data) hi]
    · rw [show (normalize V).data = normalizeData V.data from rfl,
        normalizeData_getD V.data hp]
      exact rank_nonneg _ _
    · rw [show (normalize V).data = normalizeData V.data from rfl,
        normalizeData_getD V.data hp]
      exact rank_le_length _
  · intro hall
    constructor
    · intro y hy
      rw [show (normalize V).data = normalizeData V.data from rfl,
        normalizeData_eq_map] at hy
      obtain ⟨x, hx, hxy⟩ := List.mem_map.mp hy
      rw [← hxy, hall x hx]
      exact rank_eq_zero_of_nonpos (fun y hy => posUnique_pos hy) le_rfl
    · rw [List.eq_nil_iff_forall_not_mem]
      intro a ha
      obtain ⟨hmem, hpos⟩ := mem_posUnique.mp ha
      rw [hall a hmem] at hpos
      exact lt_irrefl 0 hpos

/-- Witness for C1 at the spec's scenario `V = [[0,5,5],[3,3,0]]`: position 3
holds the 1st smallest positive value (3), and the output holds 1 there. -/
theorem C1_normalize_relabels_witness :
    (3 < ([0, 5, 5, 3, 3, 0] : List Int).length ∧
      ([0, 5, 5, 3, 3, 0] : List Int).getD 3 0
        = (posUnique [0, 5, 5, 3, 3, 0]).get ⟨0, by decide⟩) ∧
    (normalize ⟨[2, 3], [0, 5, 5, 3, 3, 0]⟩).data.getD 3 0 = 1 := by
  refine ⟨⟨by decide, by decide⟩, ?_⟩
  have h := ((C1_normalize_relabels ⟨[2, 3], [0, 5, 5, 3, 3, 0]⟩).2.2.1 3
    (by decide)).2.1 0 (by decide) (by decide)
  simpa using h

theorem countDistinctNonzero_normalize (V : Volume) :
    countDistinctNonzero (normalize V) = (posUnique V.data).length := by
  unfold countDistinctNonzero
  have hdata : (normalize V).data = V.data.map (rank (posUnique V.data)) :=
    normalizeData_eq_map V.data
  rw [hdata]
  have himg : (V.data.map (rank (posUnique V.data))).toFinset.filter (fun y => y ≠ 0)
      = Finset.image (fun x => (List.indexOf x (posUnique V.data) : Int) + 1)
          (posUnique V.data).toFinset := by
    apply Finset.ext
    intro y
    rw [Finset.mem_filter, List.mem_toFinset, List.mem_map, Finset.mem_image]
    constructor
    · rintro ⟨⟨x, hx, hrank⟩, hy0⟩
      by_cases hmem : x ∈ posUnique V.data
      · refine ⟨x, List.mem_toFinset.mpr hmem, ?_⟩
        rw [← hrank]
        unfold rank
        rw [if_pos hmem]
      · exfalso
        apply hy0
        rw [← hrank]
        unfold rank
        rw [if_neg hmem]
    · rintro ⟨x, hxu, hxy⟩
      have hxu' : x ∈ posUnique V.data := List.mem_toFinset.mp hxu
      obtain ⟨hxd, _⟩ := mem_posUnique.mp hxu'
      constructor
      · refine ⟨x, hxd, ?_⟩
        unfold rank
        rw [if_pos hxu']
        exact hxy
      · rw [← hxy]
        have : (0 : Int) < (List.indexOf x (posUnique V.data) : Int) + 1 := by positivity
        omega
  rw [himg, Finset.card_image_of_injOn, List.toFinset_card_of_nodup (posUnique_nodup _)]
  intro x hx x' hx' hxx
  have hx1 : x ∈ posUnique V.data := List.mem_toFinset.mp hx
  have hx2 : x' ∈ posUnique V.data := List.mem_toFinset.mp hx'
  have : List.indexOf x (posUnique V.data) = List.indexOf x' (posUnique V.data) := by
    have := hxx
    simp only at this
    omega
  exact (List.indexOf_inj hx1 hx2).mp this

theorem countDistinctNonzero_of_nonneg (V : Volume) (hpos : ∀ x ∈ V.data, 0 ≤ x) :
    countDistinctNonzero V = (posUnique V.data).length := by
  unfold countDistinctNonzero
  have hset : V.data.toFinset.filter (fun y => y ≠ 0) = (posUnique V.data).toFinset := by
    apply Finset.ext
    intro y
    rw [Finset.mem_filter, List.mem_toFinset, List.mem_toFinset, mem_posUnique]
    constructor
    · rintro ⟨hmem, hne⟩
      exact ⟨hmem, lt_of_le_of_ne (hpos y hmem) (Ne.symm hne)⟩
    · rintro ⟨hmem, hlt⟩
      exact ⟨hmem, ne_of_gt hlt⟩
  rw [hset, List.toFinset_card_of_nodup (posUnique_nodup _)]

/-- C3 counterexample: for `V = [-1]` (a volume with a negative value),
`normalize(V)` holds 0 at position 0 while `V` does not, and the number of
distinct nonzero values drops from 1 to 0. -/
theorem C3_counterexample :
    (Volume.mk [1] [-1]).data.getD 0 0 ≠ 0 ∧
    (normalize ⟨[1], [-1]⟩).data.getD 0 0 = 0 ∧
    countDistinctNonzero ⟨[1], [-1]⟩ = 1 ∧
    countDistinctNonzero (normalize ⟨[1], [-1]⟩) = 0 := by
  refine ⟨by decide, by decide, by decide, ?_⟩
  rw [countDistinctNonzero_normalize]
  decide

/-- C3 amended: for volumes whose values are all nonnegative, `normalize`
keeps the shape, a voxel is 0 in the output exactly when it is 0 in the
input, and the number of distinct nonzero values is preserved. -/
theorem C3_normalize_invariants (V : Volume) (hpos : ∀ x ∈ V.data, 0 ≤ x) :
    (normalize V).shape = V.shape ∧
    (∀ p, p < V.data.length →
      ((normalize V).data.getD p 0 = 0 ↔ V.data.getD p 0 = 0)) ∧
    countDistinctNonzero (normalize V) = countDistinctNonzero V := by
  refine ⟨rfl, ?_, ?_⟩
  · intro p hp
    rw [show (normalize V).data = normalizeData V.data from rfl,
      normalizeData_getD V.data hp]
    have hmem : V.data.getD p 0 ∈ V.data := by
      rw [List.getD_eq_getElem _ _ hp]
      exact List.getElem_mem hp
    constructor
    · intro h0
      by_contra hne
      have hgt : 0 < V.data.getD p 0 :=
        lt_of_le_of_ne (hpos _ hmem) (Ne.symm hne)
      have : V.data.getD p 0 ∈ posUnique V.data := mem_posUnique.mpr ⟨hmem, hgt⟩
      have := rank_pos_of_mem this
      omega
    · intro h0
      rw [h0]
      exact rank_eq_zero_of_nonpos (fun y hy => posUnique_pos hy) le_rfl
  · rw [countDistinctNonzero_normalize, countDistinctNonzero_of_nonneg V hpos]

/-- Witness for C3 amended at the spec's scenario volume. -/
theorem C3_normalize_invariants_witness :
    (∀ x ∈ ([0, 5, 5, 3, 3, 0] : List Int), 0 ≤ x) ∧
    countDistinctNonzero (normalize ⟨[2, 3], [0, 5, 5, 3, 3, 0]⟩)
      = countDistinctNonzero ⟨[2, 3], [0, 5, 5, 3, 3, 0]⟩ :=
  ⟨by decide, (C3_normalize_invariants ⟨[2, 3], [0, 5, 5, 3, 3, 0]⟩ (by decide)).2.2⟩

/-- C7 counterexample: in `V = [-3, 5]` the voxel holding `-3` is mapped to
background 0 by `normalize`, not kept as a distinct nonzero label. -/
theorem C7_counterexample :
    (Volume.mk [2] [-3, 5]).data.getD 0 0 < 0 ∧
    (normalize ⟨[2], [-3, 5]⟩).data.getD 0 0 = 0 := by
  constructor
  · decide
  · decide

/-- C7 amended: every voxel holding a negative value is sent to background 0
by `normalize`, because the unique-value list is filtered to values strictly
greater than 0 before the relabeling loop runs. -/
theorem C7_negative_to_background (V : Volume) {p : Nat} (hp : p < V.data.length)
    (hneg : V.data.getD p 0 < 0) :
    (normalize V).data.getD p 0 = 0 := by
  rw [show (normalize V).data = normalizeData V.data from rfl,
    normalizeData_getD V.data hp]
  exact rank_eq_zero_of_nonpos (fun y hy => posUnique_pos hy) (le_of_lt hneg)

/-- Witness for C7 amended at `V = [-3, 5]`, position 0. -/
theorem C7_negative_to_background_witness :
    (0 < (Volume.mk [2] [-3, 5]).data.length ∧ (Volume.mk [2] [-3, 5]).data.getD 0 0 < 0) ∧
    (normalize ⟨[2], [-3, 5]⟩).data.getD 0 0 = 0 :=
  ⟨⟨by decide, by decide⟩,
    C7_negative_to_background ⟨[2], [-3, 5]⟩ (by decide) (by decide)⟩

theorem mem_denseRange {K : Nat} {x : Int} :
    x ∈ denseRange K ↔ 1 ≤ x ∧ x ≤ (K : Int) := by
  unfold denseRange
  rw [List.mem_map]
  constructor
  · rintro ⟨n, hn, rfl⟩
    rw [List.mem_range] at hn
    omega
  · rintro ⟨h1, h2⟩
    refine ⟨x.toNat - 1, ?_, ?_⟩
    · rw [List.mem_range]
      omega
    · omega

theorem denseRange_sorted (K : Nat) : List.Sorted (· ≤ ·) (denseRange K) := by
  unfold denseRange List.Sorted
  rw [List.pairwise_map]
  exact (List.pairwise_lt_range K).imp (fun h => by omega)

theorem denseRange_nodup (K : Nat) : (denseRange K).Nodup := by
  unfold denseRange List.Nodup
  rw [List.pairwise_map]
  exact (List.pairwise_lt_range K).imp (fun h => by omega)

theorem denseRange_get {K : Nat} {i : Nat} (hi : i < (denseRange K).length) :
    (denseRange K).get ⟨i, hi⟩ = (i : Int) + 1 := by
  unfold denseRange at *
  rw [List.get_eq_getElem, List.getElem_map, List.getElem_range]

theorem posUnique_eq_denseRange {V : Volume} {K : Nat}
    (h1 : ∀ x ∈ V.data, x ≠ 0 → 1 ≤ x ∧ x ≤ (K : Int))
    (h2 : ∀ j : Nat, j < K → ((j : Int) + 1) ∈ V.data) :
    posUnique V.data = denseRange K := by
  have hmemiff : ∀ x : Int, x ∈ posUnique V.data ↔ x ∈ denseRange K := by
    intro x
    rw [mem_posUnique, mem_denseRange]
    constructor
    · rintro ⟨hmem, hpos⟩
      exact h1 x hmem (ne_of_gt hpos)
    · rintro ⟨hl, hr⟩
      have := h2 (x.toNat - 1) (by omega)
      have hx : ((x.toNat - 1 : Nat) : Int) + 1 = x := by omega
      rw [hx] at this
      exact ⟨this, by omega⟩
  have hperm : (posUnique V.data).Perm (denseRange K) := by
    apply List.perm_of_nodup_nodup_toFinset_eq (posUnique_nodup _) (denseRange_nodup K)
    apply Finset.ext
    intro a
    rw [List.mem_toFinset, List.mem_toFinset]
    exact hmemiff a
  exact List.eq_of_perm_of_sorted hperm (posUnique_sorted _) (denseRange_sorted K)

theorem rank_denseRange {K : Nat} {x : Int} (h1 : 1 ≤ x) (h2 : x ≤ (K : Int)) :
    rank (denseRange K) x = x := by
  have hlen : (denseRange K).length = K := by
    unfold denseRange
    rw [List.length_map, List.length_range]
  have hi : x.toNat - 1 < (denseRange K).length := by omega
  have hget : (denseRange K).get ⟨x.toNat - 1, hi⟩ = x := by
    rw [denseRange_get]
    omega
  unfold rank
  rw [if_pos (mem_denseRange.mpr ⟨h1, h2⟩), ← hget,
    indexOf_get_of_nodup (denseRange_nodup K) hi, hget]
  omega

theorem normalize_eq_self_of_dense {V : Volume} {K : Nat}
    (h1 : ∀ x ∈ V.data, x ≠ 0 → 1 ≤ x ∧ x ≤ (K : Int))
    (h2 : ∀ j : Nat, j < K → ((j : Int) + 1) ∈ V.data) :
    normalize V = V := by
  have hu := posUnique_eq_denseRange h1 h2
  unfold normalize
  cases V with
  | mk shape data =>
    simp only [Volume.mk.injEq, true_and]
    rw [normalizeData_eq_map]
    simp only at hu
    rw [hu]
    have : data.map (rank (denseRange K)) = data.map id := by
      apply List.map_congr_left
      intro a ha
      by_cases h0 : a = 0
      · subst h0
        exact rank_eq_zero_of_nonpos
          (fun y hy => by
            have := mem_denseRange.mp hy
            omega)
          le_rfl
      · obtain ⟨ha1, ha2⟩ := h1 a ha h0
        exact rank_denseRange ha1 ha2
    rw [this, List.map_id]

/-- C6: if the nonzero values of `V` already form the dense range `1..K`,
then normalizing twice gives the same volume as normalizing once. -/
theorem C6_normalize_idempotent (V : Volume) (K : Nat)
    (h1 : ∀ x ∈ V.data, x ≠ 0 → 1 ≤ x ∧ x ≤ (K : Int))
    (h2 : ∀ j : Nat, j < K → ((j : Int) + 1) ∈ V.data) :
    normalize (normalize V) = normalize V := by
  rw [normalize_eq_self_of_dense h1 h2]
  exact normalize_eq_self_of_dense h1 h2

/-- Witness for C6 at `V = [[0,2,2],[1,1,0]]` with `K = 2`. -/
theorem C6_normalize_idempotent_witness :
    ((∀ x ∈ (Volume.mk [2, 3] [0, 2, 2, 1, 1, 0]).data, x ≠ 0 → 1 ≤ x ∧ x ≤ (2 : Int)) ∧
      (∀ j : Nat, j < 2 → ((j : Int) + 1) ∈ (Volume.mk [2, 3] [0, 2, 2, 1, 1, 0]).data)) ∧
    normalize (normalize ⟨[2, 3], [0, 2, 2, 1, 1, 0]⟩)
      = normalize ⟨[2, 3], [0, 2, 2, 1, 1, 0]⟩ :=
  ⟨⟨by decide, by decide⟩,
    C6_normalize_idempotent ⟨[2, 3], [0, 2, 2, 1, 1, 0]⟩ 2 (by decide) (by decide)⟩

theorem processPoint_oob {src dst : Volume} {pt : List Int}
    (h : outOfBounds src.shape pt = true) :
    processPoint (src, dst) pt = Except.ok (src, dst) := by
  simp only [processPoint, h, if_true]

theorem processPoint_zero {src dst : Volume} {pt : List Int}
    (hin : outOfBounds src.shape pt = false) (hv : readVoxel src pt = 0) :
    processPoint (src, dst) pt = Except.ok (src, dst) := by
  simp only [processPoint, hin, Bool.false_eq_true, if_false, hv, if_pos rfl, if_true]

theorem processPoint_act {src dst : Volume} {pt : List Int} {v : Int}
    (hin : outOfBounds src.shape pt = false) (hv : readVoxel src pt = v)
    (hnz : v ≠ 0) (hsh : src.shape = dst.shape) :
    processPoint (src, dst) pt
      = Except.ok
          (⟨src.shape, src.data.map (fun x => if x = v then 0 else x)⟩,
            ⟨dst.shape, (src.data.zip dst.data).map (fun p => if p.1 = v then v else p.2)⟩) := by
  simp only [processPoint, hin, Bool.false_eq_true, if_false, hv, if_neg hnz, if_pos hsh]

theorem leadingDims_self (l : List Nat) : leadingDims l l = true := by
  induction l with
  | nil => rfl
  | cons a as ih => simp [leadingDims, ih]

theorem processPoint_mismatch {src dst : Volume} {pt : List Int}
    (hin : outOfBounds src.shape pt = false) (hnz : readVoxel src pt ≠ 0)
    (hpre : leadingDims src.shape dst.shape = false) :
    processPoint (src, dst) pt
      = Except.error "boolean index did not match the shape of the indexed array" := by
  have hsh : src.shape ≠ dst.shape := by
    intro h
    rw [h, leadingDims_self] at hpre
    exact Bool.noConfusion hpre
  simp only [processPoint, hin, Bool.false_eq_true, if_false, if_neg hnz, if_neg hsh,
    hpre]

theorem processPoint_subarray {src dst : Volume} {pt : List Int} {v : Int}
    (hin : outOfBounds src.shape pt = false) (hv : readVoxel src pt = v)
    (hnz : v ≠ 0) (hsh : src.shape ≠ dst.shape)
    (hpre : leadingDims src.shape dst.shape = true) :
    processPoint (src, dst) pt
      = Except.ok
          (⟨src.shape, src.data.map (fun x => if x = v then 0 else x)⟩,
            ⟨dst.shape, (dst.data.enum).map (fun p =>
              if src.data.getD (p.1 / (dst.shape.drop src.shape.length).prod) 0 = v
              then v else p.2)⟩) := by
  simp only [processPoint, hin, Bool.false_eq_true, if_false, hv, if_neg hnz,
    if_neg hsh, hpre, if_true]

theorem wellFormed_length_eq {src dst : Volume} (hs : wellFormed src)
    (hd : wellFormed dst) (hsh : src.shape = dst.shape) :
    src.data.length = dst.data.length := by
  unfold wellFormed at hs hd
  rw [hs, hd, hsh]

/-- C2: for equal-shape volumes, an in-bounds point whose source voxel holds a
nonzero value `v` makes the transfer loop move the whole value group anywhere
in the volume: every position where source holds `v` is set to `v` in the
destination and to 0 in the source, all other positions are untouched; and on
the spec's scenario the whole value-7 group moves and the points clear. -/
theorem C2_transfer_moves_value_group :
    (∀ (src dst : Volume) (pt : List Int) (v : Int),
      wellFormed src → wellFormed dst → src.shape = dst.shape →
      outOfBounds src.shape pt = false →
      readVoxel src pt = v → v ≠ 0 →
      ∃ src' dst', processPoint (src, dst) pt = Except.ok (src', dst') ∧
        src'.shape = src.shape ∧ dst'.shape = dst.shape ∧
        src'.data.length = src.data.length ∧ dst'.data.length = dst.data.length ∧
        (∀ q, q < src.data.length →
          src'.data.getD q 0 = (if src.data.getD q 0 = v then 0 else src.data.getD q 0) ∧
          dst'.data.getD q 0 = (if src.data.getD q 0 = v then v else dst.data.getD q 0))) ∧
    transfer ⟨[2, 3], [7, 7, 0, 0, 0, 7]⟩ ⟨[2, 3], [0, 0, 0, 0, 0, 0]⟩ [[0, 0]]
      = Except.ok (⟨[2, 3], [0, 0, 0, 0, 0, 0]⟩, ⟨[2, 3], [7, 7, 0, 0, 0, 7]⟩, []) := by
  constructor
  · intro src dst pt v hws hwd hsh hin hv hnz
    have hlen : src.data.length = dst.data.length := wellFormed_length_eq hws hwd hsh
    refine ⟨_, _, processPoint_act hin hv hnz hsh, rfl, rfl, ?_, ?_, ?_⟩
    · rw [List.length_map]
    · rw [List.length_map, List.length_zip, hlen, min_self]
    · intro q hq
      have hq' : q < dst.data.length := hlen ▸ hq
      have hqz : q < (src.data.zip dst.data).length := by
        rw [List.length_zip, ← hlen, min_self]
        exact hq
      constructor
      · rw [List.getD_eq_getElem _ _ (by simpa using hq),
          List.getD_eq_getElem _ _ hq, List.getElem_map]
      · rw [List.getD_eq_getElem _ _ (by simpa using hqz),
          List.getD_eq_getElem _ _ hq, List.getD_eq_getElem _ _ hq',
          List.getElem_map, List.getElem_zip]
  · rfl

/-- Witness for C2 at the spec's scenario: point (0,0) on
source [[7,7,0],[0,0,7]] with destination all zeros. -/
theorem C2_transfer_moves_value_group_witness :
    (wellFormed ⟨[2, 3], [7, 7, 0, 0, 0, 7]⟩ ∧
      wellFormed ⟨[2, 3], [0, 0, 0, 0, 0, 0]⟩ ∧
      outOfBounds [2, 3] [0, 0] = false ∧
      readVoxel ⟨[2, 3], [7, 7, 0, 0, 0, 7]⟩ [0, 0] = 7) ∧
    (∃ src' dst',
      processPoint (⟨[2, 3], [7, 7, 0, 0, 0, 7]⟩, ⟨[2, 3], [0, 0, 0, 0, 0, 0]⟩) [0, 0]
        = Except.ok (src', dst') ∧
      src'.shape = [2, 3] ∧ dst'.shape = [2, 3] ∧
      src'.data.length = 6 ∧ dst'.data.length = 6 ∧
      (∀ q, q < 6 →
        src'.data.getD q 0
          = (if ([7, 7, 0, 0, 0, 7] : List Int).getD q 0 = 7 then 0
              else ([7, 7, 0, 0, 0, 7] : List Int).getD q 0) ∧
        dst'.data.getD q 0
          = (if ([7, 7, 0, 0, 0, 7] : List Int).getD q 0 = 7 then 7
              else ([0, 0, 0, 0, 0, 0] : List Int).getD q 0))) :=
  ⟨⟨rfl, rfl, by decide, by decide⟩,
    C2_transfer_moves_value_group.1 ⟨[2, 3], [7, 7, 0, 0, 0, 7]⟩
      ⟨[2, 3], [0, 0, 0, 0, 0, 0]⟩ [0, 0] 7 rfl rfl rfl (by decide) (by decide) (by decide)⟩

/-- C4: an out-of-bounds point is silently skipped (no mutation, the rest of
the batch still runs), a point on a background voxel is skipped too, and any
successful run over a nonempty point list ends with the point set cleared. -/
theorem C4_oob_and_background_points_skipped :
    (∀ (src dst : Volume) (pt : List Int) (pts : List (List Int)),
      outOfBounds src.shape pt = true →
      processPoint (src, dst) pt = Except.ok (src, dst) ∧
      transferFold src dst (pt :: pts) = transferFold src dst pts) ∧
    (∀ (src dst : Volume) (pt : List Int),
      outOfBounds src.shape pt = false → readVoxel src pt = 0 →
      processPoint (src, dst) pt = Except.ok (src, dst)) ∧
    (∀ (src dst : Volume) (pt : List Int) (pts : List (List Int))
        (s d : Volume) (ps : List (List Int)),
      transfer src dst (pt :: pts) = Except.ok (s, d, ps) → ps = []) := by
  refine ⟨?_, ?_, ?_⟩
  · intro src dst pt pts h
    refine ⟨processPoint_oob h, ?_⟩
    unfold transferFold
    rw [List.foldlM_cons, processPoint_oob h]
    rfl
  · intro src dst pt hin hv
    exact processPoint_zero hin hv
  · intro src dst pt pts s d ps h
    unfold transfer at h
    rw [if_neg (by simp)] at h
    cases hfold : transferFold src dst (pt :: pts) with
    | ok sd =>
      rw [hfold] at h
      simp only [Except.map] at h
      injection h with h'
      exact (congrArg (fun t => t.2.2) h').symm
    | error e =>
      rw [hfold] at h
      simp only [Except.map] at h
      exact absurd h (by simp)

/-- Witness for C4: point (99,99) is out of bounds on a 3x3 volume, causes no
mutation, and the batch continues with the remaining points. -/
theorem C4_oob_and_background_points_skipped_witness :
    outOfBounds [3, 3] [99, 99] = true ∧
    (processPoint (⟨[3, 3], [0, 0, 0, 0, 1, 0, 0, 0, 0]⟩, ⟨[3, 3], [0, 0, 0, 0, 0, 0, 0, 0, 0]⟩)
        [99, 99]
      = Except.ok (⟨[3, 3], [0, 0, 0, 0, 1, 0, 0, 0, 0]⟩, ⟨[3, 3], [0, 0, 0, 0, 0, 0, 0, 0, 0]⟩) ∧
    transferFold ⟨[3, 3], [0, 0, 0, 0, 1, 0, 0, 0, 0]⟩ ⟨[3, 3], [0, 0, 0, 0, 0, 0, 0, 0, 0]⟩
        [[99, 99], [1, 1]]
      = transferFold ⟨[3, 3], [0, 0, 0, 0, 1, 0, 0, 0, 0]⟩ ⟨[3, 3], [0, 0, 0, 0, 0, 0, 0, 0, 0]⟩
        [[1, 1]]) :=
  ⟨by decide,
    C4_oob_and_background_points_skipped.1 ⟨[3, 3], [0, 0, 0, 0, 1, 0, 0, 0, 0]⟩
      ⟨[3, 3], [0, 0, 0, 0, 0, 0, 0, 0, 0]⟩ [99, 99] [[1, 1]] (by decide)⟩

theorem readVoxel_act_zero {src : Volume} {v : Int} (pt : List Int)
    (hv : readVoxel src pt = v) (hnz : v ≠ 0) :
    readVoxel ⟨src.shape, src.data.map (fun x => if x = v then 0 else x)⟩ pt = 0 := by
  unfold readVoxel at *
  by_cases hk : flatIndex src.shape pt < src.data.length
  · rw [List.getD_eq_getElem _ _ hk] at hv
    rw [List.getD_eq_getElem _ _ (by simpa using hk), List.getElem_map, hv, if_pos rfl]
  · rw [List.getD_eq_default _ _ (le_of_not_lt hk)] at hv
    exact absurd hv.symm hnz

theorem processPoint_noop_of_read_zero (s d : Volume) (pt : List Int)
    (h : readVoxel s pt = 0) :
    processPoint (s, d) pt = Except.ok (s, d) := by
  by_cases hoob : outOfBounds s.shape pt = true
  · exact processPoint_oob hoob
  · exact processPoint_zero (by simpa using hoob) h

theorem transferFold_noop {s1 d1 : Volume} {rest : List (List Int)}
    (h : ∀ pt ∈ rest, processPoint (s1, d1) pt = Except.ok (s1, d1)) :
    transferFold s1 d1 rest = Except.ok (s1, d1) := by
  induction rest with
  | nil => rfl
  | cons pt pts ih =>
    unfold transferFold at *
    rw [List.foldlM_cons, h pt (List.mem_cons_self pt pts)]
    exact ih (fun q hq => h q (List.mem_cons_of_mem pt hq))

/-- C5: in one transfer over distinct equal-shape volumes, once a first point
moves the value group `v`, every later point that initially addressed a voxel
of that group reads 0 from the source and is skipped, so the final state
equals the state after the first point alone. -/
theorem C5_same_label_points_idempotent (src dst : Volume) (p1 : List Int)
    (rest : List (List Int)) (v : Int)
    (hsh : src.shape = dst.shape)
    (h1 : outOfBounds src.shape p1 = false)
    (hv1 : readVoxel src p1 = v) (hnz : v ≠ 0)
    (hrest : ∀ pt ∈ rest, readVoxel src pt = v) :
    ∃ s1 d1, processPoint (src, dst) p1 = Except.ok (s1, d1) ∧
      (∀ pt ∈ rest, readVoxel s1 pt = 0) ∧
      (∀ pt ∈ rest, processPoint (s1, d1) pt = Except.ok (s1, d1)) ∧
      transferFold src dst (p1 :: rest) = Except.ok (s1, d1) ∧
      transferFold src dst (p1 :: rest) = transferFold src dst [p1] := by
  refine ⟨⟨src.shape, src.data.map (fun x => if x = v then 0 else x)⟩,
    ⟨dst.shape, (src.data.zip dst.data).map (fun p => if p.1 = v then v else p.2)⟩,
    processPoint_act h1 hv1 hnz hsh, ?_, ?_, ?_, ?_⟩
  · intro pt hpt
    exact readVoxel_act_zero pt (hrest pt hpt) hnz
  · intro pt hpt
    exact processPoint_noop_of_read_zero _ _ pt (readVoxel_act_zero pt (hrest pt hpt) hnz)
  · unfold transferFold
    rw [List.foldlM_cons, processPoint_act h1 hv1 hnz hsh]
    exact transferFold_noop (fun pt hpt =>
      processPoint_noop_of_read_zero _ _ pt (readVoxel_act_zero pt (hrest pt hpt) hnz))
  · have hL : transferFold src dst (p1 :: rest)
        = Except.ok
            (⟨src.shape, src.data.map (fun x => if x = v then 0 else x)⟩,
              ⟨dst.shape, (src.data.zip dst.data).map (fun p => if p.1 = v then v else p.2)⟩) := by
      unfold transferFold
      rw [List.foldlM_cons, processPoint_act h1 hv1 hnz hsh]
      exact transferFold_noop (fun pt hpt =>
        processPoint_noop_of_read_zero _ _ pt (readVoxel_act_zero pt (hrest pt hpt) hnz))
    have hR : transferFold src dst [p1]
        = Except.ok
            (⟨src.shape, src.data.map (fun x => if x = v then 0 else x)⟩,
              ⟨dst.shape, (src.data.zip dst.data).map (fun p => if p.1 = v then v else p.2)⟩) := by
      unfold transferFold
      rw [List.foldlM_cons, processPoint_act h1 hv1 hnz hsh]
      rfl
    rw [hL, hR]

/-- Witness for C5: both (0,0) and (1,2) hold value 7 initially; after the
first point the state is unchanged by the second. -/
theorem C5_same_label_points_idempotent_witness :
    (outOfBounds [2, 3] [0, 0] = false ∧
      readVoxel ⟨[2, 3], [7, 7, 0, 0, 0, 7]⟩ [0, 0] = 7 ∧
      (∀ pt ∈ ([[1, 2]] : List (List Int)),
        readVoxel ⟨[2, 3], [7, 7, 0, 0, 0, 7]⟩ pt = 7)) ∧
    (∃ s1 d1,
      processPoint (⟨[2, 3], [7, 7, 0, 0, 0, 7]⟩, ⟨[2, 3], [0, 0, 0, 0, 0, 0]⟩) [0, 0]
        = Except.ok (s1, d1) ∧
      (∀ pt ∈ ([[1, 2]] : List (List Int)), readVoxel s1 pt = 0) ∧
      (∀ pt ∈ ([[1, 2]] : List (List Int)),
        processPoint (s1, d1) pt = Except.ok (s1, d1)) ∧
      transferFold ⟨[2, 3], [7, 7, 0, 0, 0, 7]⟩ ⟨[2, 3], [0, 0, 0, 0, 0, 0]⟩
          [[0, 0], [1, 2]] = Except.ok (s1, d1) ∧
      transferFold ⟨[2, 3], [7, 7, 0, 0, 0, 7]⟩ ⟨[2, 3], [0, 0, 0, 0, 0, 0]⟩
          [[0, 0], [1, 2]]
        = transferFold ⟨[2, 3], [7, 7, 0, 0, 0, 7]⟩ ⟨[2, 3], [0, 0, 0, 0, 0, 0]⟩
          [[0, 0]]) :=
  ⟨⟨by decide, by decide, by decide⟩,
    C5_same_label_points_idempotent ⟨[2, 3], [7, 7, 0, 0, 0, 7]⟩
      ⟨[2, 3], [0, 0, 0, 0, 0, 0]⟩ [0, 0] [[1, 2]] 7 rfl (by decide) (by decide)
      (by decide) (by decide)⟩

theorem transferFold_ok_of_eq_shapes (points : List (List Int)) :
    ∀ (src dst : Volume), src.shape = dst.shape →
      ∃ s d, transferFold src dst points = Except.ok (s, d) ∧
        s.shape = src.shape ∧ d.shape = dst.shape := by
  induction points with
  | nil =>
    intro src dst _
    exact ⟨src, dst, rfl, rfl, rfl⟩
  | cons pt pts ih =>
    intro src dst hsh
    by_cases hoob : outOfBounds src.shape pt = true
    · obtain ⟨s, d, hfold, hs, hd⟩ := ih src dst hsh
      refine ⟨s, d, ?_, hs, hd⟩
      unfold transferFold at hfold ⊢
      rw [List.foldlM_cons, processPoint_oob hoob]
      exact hfold
    · by_cases hv : readVoxel src pt = 0
      · obtain ⟨s, d, hfold, hs, hd⟩ := ih src dst hsh
        refine ⟨s, d, ?_, hs, hd⟩
        unfold transferFold at hfold ⊢
        rw [List.foldlM_cons, processPoint_zero (by simpa using hoob) hv]
        exact hfold
      · obtain ⟨s, d, hfold, hs, hd⟩ :=
          ih ⟨src.shape, src.data.map (fun x => if x = readVoxel src pt then 0 else x)⟩
            ⟨dst.shape, (src.data.zip dst.data).map
              (fun p => if p.1 = readVoxel src pt then readVoxel src pt else p.2)⟩ hsh
        refine ⟨s, d, ?_, hs, hd⟩
        unfold transferFold at hfold ⊢
        rw [List.foldlM_cons, processPoint_act (by simpa using hoob) rfl hv hsh]
        exact hfold

/-- C8 counterexample: source shape [1] and destination shape [2] mismatch,
yet the transfer call over the point (0) — whose source voxel is background —
completes with no error at all: the malformed input is silently ignored, not
surfaced as a fail-fast descriptive error. -/
theorem C8_counterexample :
    (Volume.mk [1] [0]).shape ≠ (Volume.mk [2] [0, 0]).shape ∧
    transfer ⟨[1], [0]⟩ ⟨[2], [0, 0]⟩ [[0]]
      = Except.ok (⟨[1], [0]⟩, ⟨[2], [0, 0]⟩, []) := by
  exact ⟨by decide, rfl⟩

/-- C8 amended: the source has no shape validation and no fail-fast error.
What happens on a shape mismatch is decided per point at the mask-write step
by numpy's boolean-indexing rule: (a) when the source's dimension list is not
a leading segment of the destination's, an acting point raises the library
IndexError; (b) when it is a proper leading segment, the acting point
completes silently, writing the whole trailing subarray under each masked
position, so even an acting point need not surface the mismatch; (c) a point
whose source voxel is background is skipped with no shape check at all; and
(d) for equal-shape inputs every run of the point loop succeeds with no
statistics returned. -/
theorem C8_no_shape_validation :
    (∀ (src dst : Volume) (pt : List Int),
      outOfBounds src.shape pt = false → readVoxel src pt ≠ 0 →
      leadingDims src.shape dst.shape = false →
      processPoint (src, dst) pt
        = Except.error "boolean index did not match the shape of the indexed array") ∧
    (∀ (src dst : Volume) (pt : List Int) (v : Int),
      outOfBounds src.shape pt = false → readVoxel src pt = v → v ≠ 0 →
      src.shape ≠ dst.shape → leadingDims src.shape dst.shape = true →
      ∃ s d, processPoint (src, dst) pt = Except.ok (s, d) ∧
        s.shape = src.shape ∧ d.shape = dst.shape ∧
        d.data.length = dst.data.length ∧
        (∀ q, q < dst.data.length →
          d.data.getD q 0
            = (if src.data.getD (q / (dst.shape.drop src.shape.length).prod) 0 = v
                then v else dst.data.getD q 0))) ∧
    (∀ (src dst : Volume) (pt : List Int),
      readVoxel src pt = 0 → processPoint (src, dst) pt = Except.ok (src, dst)) ∧
    (∀ (src dst : Volume) (points : List (List Int)), src.shape = dst.shape →
      ∃ s d, transferFold src dst points = Except.ok (s, d) ∧
        s.shape = src.shape ∧ d.shape = dst.shape) := by
  refine ⟨fun _ _ _ hin hnz hpre => processPoint_mismatch hin hnz hpre, ?_,
    fun src dst pt h => processPoint_noop_of_read_zero src dst pt h,
    fun src dst points hsh => transferFold_ok_of_eq_shapes points src dst hsh⟩
  intro src dst pt v hin hv hnz hsh hpre
  refine ⟨_, _, processPoint_subarray hin hv hnz hsh hpre, rfl, rfl, ?_, ?_⟩
  · rw [List.length_map, List.enum_length]
  · intro q hq
    have hq' : q < ((dst.data.enum).map (fun p =>
        if src.data.getD (p.1 / (dst.shape.drop src.shape.length).prod) 0 = v
        then v else p.2)).length := by
      rw [List.length_map, List.enum_length]
      exact hq
    rw [List.getD_eq_getElem _ _ hq', List.getD_eq_getElem _ _ hq, List.getElem_map,
      List.getElem_enum]

/-- Witness for C8 amended: a same-rank mismatched pair errors when a point
reaches the mask write. -/
theorem C8_no_shape_validation_witness :
    (outOfBounds [1] [0] = false ∧
      readVoxel ⟨[1], [5]⟩ [0] ≠ 0 ∧
      leadingDims [1] [2] = false) ∧
    processPoint (⟨[1], [5]⟩, ⟨[2], [0, 0]⟩) [0]
      = Except.error "boolean index did not match the shape of the indexed array" :=
  ⟨⟨by decide, by decide, by decide⟩,
    C8_no_shape_validation.1 ⟨[1], [5]⟩ ⟨[2], [0, 0]⟩ [0] (by decide) (by decide) (by decide)⟩

/-- C10: when the From and To layers are the same volume, a point addressing a
nonzero value `v` erases the whole value group: the mask positions are written
with `v` and then zeroed in the same array, so afterwards no voxel holds `v`. -/
theorem C10_same_layer_erases_label (vol : Volume) (pt : List Int) (v : Int)
    (hin : outOfBounds vol.shape pt = false)
    (hv : readVoxel vol pt = v) (hnz : v ≠ 0) :
    (processPointSame vol pt).shape = vol.shape ∧
    (processPointSame vol pt).data = vol.data.map (fun x => if x = v then 0 else x) ∧
    ∀ y ∈ (processPointSame vol pt).data, y ≠ v := by
  have hdata : (vol.data.zip (vol.data.map (fun x => if x = v then v else x))).map
      (fun p => if p.1 = v then 0 else p.2)
      = vol.data.map (fun x => if x = v then 0 else x) := by
    have hw := writeMask_map vol.data (fun x => if x = v then v else x) v 0
    unfold writeMask at hw
    rw [hw]
    apply List.map_congr_left
    intro a _
    by_cases h : a = v
    · rw [if_pos h, if_pos h]
    · rw [if_neg h, if_neg h, if_neg h]
  have hdef : processPointSame vol pt
      = Volume.mk vol.shape (vol.data.map (fun x => if x = v then 0 else x)) := by
    simp only [processPointSame, hin, Bool.false_eq_true, if_false, hv, if_neg hnz]
    rw [hdata]
  refine ⟨by rw [hdef], by rw [hdef], ?_⟩
  rw [hdef]
  intro y hy
  obtain ⟨x, _, hxy⟩ := List.mem_map.mp hy
  by_cases h : x = v
  · rw [if_pos h] at hxy
    rw [← hxy]
    exact fun h0 => hnz h0.symm
  · rw [if_neg h] at hxy
    rw [← hxy]
    exact h

/-- Witness for C10: erasing the value-7 group of [[7,7,0],[0,0,7]] in place
leaves no voxel holding 7. -/
theorem C10_same_layer_erases_label_witness :
    (outOfBounds [2, 3] [0, 0] = false ∧
      readVoxel ⟨[2, 3], [7, 7, 0, 0, 0, 7]⟩ [0, 0] = 7) ∧
    ∀ y ∈ (processPointSame ⟨[2, 3], [7, 7, 0, 0, 0, 7]⟩ [0, 0]).data, y ≠ 7 :=
  ⟨⟨by decide, by decide⟩,
    (C10_same_layer_erases_label ⟨[2, 3], [7, 7, 0, 0, 0, 7]⟩ [0, 0] 7
      (by decide) (by decide) (by decide)).2.2⟩

/-- C9 counterexample: the exporter sends pixel value 70000 to
`70000 mod 65536 = 4464`, while the clamping cast the claim asserts would
produce 65535. -/
theorem C9_counterexample :
    exportSlices ⟨[1, 1], [70000]⟩ = [[4464]] ∧
    clamp16 70000 = 65535 ∧
    (4464 : Nat) ≠ 65535 :=
  ⟨rfl, rfl, by decide⟩

/-- C9 amended: the exporter walks the first axis and casts each pixel with
uint16 wraparound semantics — reduction modulo `2^16` — not clamping: the cast
is bounded by 65536, is the identity on `[0, 65535]`, and is periodic with
period 65536. -/
theorem C9_export_cast_wraps :
    (∀ (V : Volume) (n : Nat) (rest : List Nat), V.shape = n :: rest →
      (exportSlices V).length = n ∧
      ∀ z, z < n → (exportSlices V).getD z []
        = ((V.data.drop (z * rest.prod)).take rest.prod).map toUint16) ∧
    (∀ x : Int, toUint16 x < 65536 ∧
      (0 ≤ x → x ≤ 65535 → (toUint16 x : Int) = x) ∧
      toUint16 (x + 65536) = toUint16 x) := by
  constructor
  · intro V n rest hsh
    unfold exportSlices
    rw [hsh]
    constructor
    · rw [List.length_map, List.length_range]
    · intro z hz
      rw [List.getD_eq_getElem _ _ (by simpa using hz), List.getElem_map,
        List.getElem_range]
  · intro x
    unfold toUint16
    refine ⟨?_, ?_, ?_⟩
    · omega
    · intro h1 h2
      omega
    · omega

/-- Witness for C9 amended: a 3-slice volume exports exactly 3 slices. -/
theorem C9_export_cast_wraps_witness :
    (Volume.mk [3, 2] [0, 1, 2, 3, 4, 5]).shape = 3 :: [2] ∧
    (exportSlices ⟨[3, 2], [0, 1, 2, 3, 4, 5]⟩).length = 3 :=
  ⟨rfl,
    (C9_export_cast_wraps.1 ⟨[3, 2], [0, 1, 2, 3, 4, 5]⟩ 3 [2] rfl).1⟩

end NeuronProcessor
